import Mathlib

/-!
Verification of the release pipeline in `bin/releaser.py` (jfreventcollector).

Each Python function relevant to the claims is shallowly embedded as an
executable Lean definition.  Filesystem and subprocess effects are modelled
as explicit action traces; Python exceptions are modelled with `Except`.
Modification times are modelled as integers (only their order matters).
`CURRENT_DIR` (the installation directory computed at runtime) is modelled
as the empty string: it is a common constant paths are built from, so no
comparison between paths depends on its value.
-/

set_option autoImplicit false

namespace Releaser

/-- Python runtime exceptions raised by the modelled code paths. -/
inductive PyErr where
  | nameError
  | indexError
  | valueError
  | stopIteration
  | calledProcessError
  | httpError (code : Nat)
deriving DecidableEq, Repr

/-- Model of `CURRENT_DIR` (runtime installation directory, see module docstring). -/
def CURRENT_DIR : String := ""

/-- `CACHE_DIR = f"{CURRENT_DIR}/.cache"`. -/
def CACHE_DIR : String := CURRENT_DIR ++ "/.cache"

/-- `METADATA_FOLDER = f"{CURRENT_DIR}/metadata"`. -/
def METADATA_FOLDER : String := CURRENT_DIR ++ "/metadata"

/-- `VERSION = "0.6"`. -/
def VERSION : String := "0.6"

/-- `VERSIONS_WITH_AI_DESCRIPTIONS = [21]`. -/
def VERSIONS_WITH_AI_DESCRIPTIONS : List Nat := [21]

/-- `repo_folder(repo) = f"{CACHE_DIR}/{repo.name}"`. -/
def repo_folder (name : String) : String := CACHE_DIR ++ "/" ++ name

/-- `meta_file_name(repo, wo_examples, wo_ai_descriptions, only_events)`:
`metadata_{version}` followed by `_wo_examples` if `wo_examples`, `_events` if
`only_events`, `wo_ai_descriptions` if `wo_ai_descriptions`, then `.xml`,
inside `METADATA_FOLDER`. -/
def meta_file_name (version : Nat) (wo_examples wo_ai_descriptions only_events : Bool) :
    String :=
  METADATA_FOLDER ++ "/metadata_" ++ toString version ++
    (if wo_examples then "_wo_examples" else "") ++
    (if only_events then "_events" else "") ++
    (if wo_ai_descriptions then "wo_ai_descriptions" else "") ++ ".xml"

/-- Observable filesystem / tool actions performed by `build_version`. -/
inductive BAction where
  | createJfr
  | downloadRepo
  | removeFile (p : String)
  | copyFile (src dst : String)
  | stage (tool : String)
deriving DecidableEq, Repr

/-- Trace model of `build_version(repo, force)`.

Inputs: `a` is `os.path.getmtime(meta_file)` (meaningful only when
`metaExists`), `s` is `os.path.getmtime(repo_folder(repo) + "/src")`, `m` is
`generated_example_min_mtime = min(os.path.getmtime(jfr_file_name(gc)) for gc
in list_gc_options())` (the minimum over all required GC sample recordings,
taken as an input here).  `jfrMissing` / `repoMissing` say whether
`create_jfr_if_needed()` / `download_repo_if_not_exists(repo)` have any work
to do; `hasGraal` is `has_graal_version(repo.version)`; `woExists` is
`os.path.exists(meta_wo_examples)`; `aiKey` is
`os.path.exists(CURRENT_DIR + "/.openai.key")`.  The returned list is the
sequence of filesystem writes and enrichment-tool invocations. -/
def build_version_trace (repoName : String) (version : Nat) (force metaExists : Bool)
    (a s m : Int) (jfrMissing repoMissing hasGraal woExists aiKey : Bool) :
    List BAction :=
  let meta := meta_file_name version false false false
  let metaWo := meta_file_name version true false false
  let pre := (if jfrMissing then [BAction.createJfr] else []) ++
    (if repoMissing then [BAction.downloadRepo] else [])
  if metaExists && !force && decide (max s m < a) then
    pre ++ [BAction.copyFile meta metaWo]
  else
    pre ++ (if metaExists then [BAction.removeFile meta] else []) ++
    [BAction.copyFile (repo_folder repoName ++ "/src/hotspot/share/jfr/metadata/metadata.xml")
        meta,
      BAction.stage "add_events",
      BAction.copyFile meta (meta_file_name version false false true)] ++
    (if hasGraal then [BAction.stage "add_graal_events"] else []) ++
    [BAction.stage "add_additional_descriptions"] ++
    (if woExists then [BAction.removeFile metaWo] else []) ++
    [BAction.copyFile meta metaWo,
      BAction.stage "add_examples",
      BAction.stage "add_source_code_context"] ++
    (if aiKey && VERSIONS_WITH_AI_DESCRIPTIONS.contains version then
      [BAction.stage "add_ai_generated_descriptions"] else [])

/-- An action is an enrichment-chain tool invocation. -/
def isStage : BAction → Bool
  | BAction.stage _ => true
  | _ => false

/-- The trace ran (part of) the enrichment chain. -/
def ranChain (tr : List BAction) : Bool := tr.any isStage

/-- C1: for a release whose artifact file exists (`metaExists = true`), the
enrichment chain runs (some enrichment tool is invoked) iff `force` or the
artifact mtime `a` is at most `max s m` (source-tree mtime vs minimum sample
mtime); whenever `a > max s m` and not forced, no chain stage runs at all. -/
theorem build_version_staleness_gate (repoName : String) (version : Nat) (force : Bool)
    (a s m : Int) (jfrMissing repoMissing hasGraal woExists aiKey : Bool) :
    ranChain (build_version_trace repoName version force true a s m
        jfrMissing repoMissing hasGraal woExists aiKey) = true ↔
      (force = true ∨ a ≤ max s m) := by
  unfold build_version_trace ranChain
  rcases le_or_lt a (max s m) with h | h
  · have hd : decide (max s m < a) = false := decide_eq_false (not_lt.mpr h)
    simp only [hd, Bool.and_false]
    simp [isStage, h]
  · have hd : decide (max s m < a) = true := decide_eq_true h
    simp only [hd, Bool.and_true]
    cases force
    · cases jfrMissing <;> cases repoMissing <;> simp [isStage, not_le.mpr h]
    · simp [isStage]

/-- C2 (amended): when the staleness gate skips (artifact exists, not forced,
artifact mtime above `max s m`, and the preliminary jfr/repo downloads have
nothing to do), the skip path performs exactly one write: copying the current
artifact over the without-examples variant `metadata_N_wo_examples.xml` — the
same file the full chain rewrites right after description enrichment, just
before example enrichment — and writes no other file. -/
theorem build_version_skip_refreshes_wo_examples (repoName : String) (version : Nat)
    (a s m : Int) (hasGraal woExists aiKey : Bool) (h : max s m < a) :
    build_version_trace repoName version false true a s m false false hasGraal woExists aiKey
      = [BAction.copyFile (meta_file_name version false false false)
          (meta_file_name version true false false)] := by
  unfold build_version_trace
  simp [decide_eq_true h, max_lt_iff.mp h]

theorem build_version_skip_refreshes_wo_examples_witness :
    (max (1 : Int) 2 < 5) ∧
      build_version_trace "jdk21u" 21 false true 5 1 2 false false true true true
        = [BAction.copyFile (meta_file_name 21 false false false)
            (meta_file_name 21 true false false)] :=
  ⟨by decide,
    build_version_skip_refreshes_wo_examples "jdk21u" 21 5 1 2 true true true (by decide)⟩

/-- C2 counterexample: at version 11 (artifact mtime 5 above `max 1 2`, not
forced) the skip path copies the artifact over `metadata_11_wo_examples.xml`,
while the file copied aside immediately after the event-enrichment stage in a
full run is `metadata_11_events.xml` — a different file.  So the skip path
does not refresh "the same file that is copied aside immediately after the
event-enrichment stage". -/
theorem build_version_skip_target_differs_from_events_snapshot :
    (build_version_trace "jdk11u" 11 false true 5 1 2 false false false false false
      = [BAction.copyFile (meta_file_name 11 false false false)
          (meta_file_name 11 true false false)]) ∧
    (BAction.copyFile (meta_file_name 11 false false false)
        (meta_file_name 11 false false true)
      ∈ build_version_trace "jdk11u" 11 true true 5 1 2 false false false false false) ∧
    meta_file_name 11 true false false ≠ meta_file_name 11 false false true := by
  refine ⟨by decide, by decide, by decide⟩

/-- One entry of the GitHub `/tags` JSON reply, with the fields the code
reads: `name`, `zipball_url`, `commit.sha`. -/
structure GHTag where
  name : String
  zipball_url : String
  commit_sha : String
deriving DecidableEq, Repr

/-- `LatestReleaseInfo` dataclass: `name`, `zip_url`, `commit`. -/
structure LatestReleaseInfo where
  name : String
  zip_url : String
  commit : String
deriving DecidableEq, Repr

/-- Auxiliary for `startswith`: the first list is an initial segment of the
second. -/
def listStarts : List Char → List Char → Bool
  | [], _ => true
  | _ :: _, [] => false
  | c :: cs, d :: ds => c == d && listStarts cs ds

/-- Python `str.startswith`, modelled on the character lists of the strings. -/
def startswith (s start : String) : Bool := listStarts start.data s.data

/-- `get_tags(repo)`: the downloaded tag list filtered to names starting with
`jdk-{repo.version}`.  The tag list returned by the API is the input. -/
def get_tags (version : Nat) (tags : List GHTag) : List GHTag :=
  tags.filter (fun d => startswith d.name ("jdk-" ++ toString version))

/-- Python `"." in name`: for the single-character delimiter this is
membership of the dot among the characters of the name. -/
def hasDot (s : String) : Bool := s.data.contains '.'

/-- Body of `get_latest_release_name_and_zip_url(repo)` applied to the
retained tag list: take `names[0]` (IndexError on an empty list), switch to
the first dot-containing name when one exists, then return the first retained
tag carrying that name. -/
def select_latest (retained : List GHTag) : Except PyErr LatestReleaseInfo :=
  match retained.map GHTag.name with
  | [] => Except.error PyErr.indexError
  | n0 :: rest =>
    let latest_name :=
      match (n0 :: rest).filter hasDot with
      | [] => n0
      | n :: _ => n
    match retained.filter (fun d => d.name == latest_name) with
    | [] => Except.error PyErr.indexError
    | d :: _ => Except.ok ⟨latest_name, d.zipball_url, d.commit_sha⟩

/-- `get_latest_release_name_and_zip_url(repo)` (both `get_tags(repo)` calls
in the body return the same list, so it is computed once here). -/
def get_latest_release_name_and_zip_url (version : Nat) (tags : List GHTag) :
    Except PyErr LatestReleaseInfo :=
  select_latest (get_tags version tags)

/-- The tag the spec says is selected: the first retained tag whose name
contains the point-release delimiter when one exists, otherwise the first
retained tag, in API return order. -/
def claimedTag (retained : List GHTag) : Option GHTag :=
  match retained.filter (fun d => hasDot d.name) with
  | [] => retained.head?
  | t :: _ => some t

theorem filter_hasDot_map_name (l : List GHTag) :
    (l.map GHTag.name).filter hasDot
      = (l.filter (fun d => hasDot d.name)).map GHTag.name := by
  induction l with
  | nil => rfl
  | cons x xs ih =>
    by_cases hx : hasDot x.name = true <;>
      simp [List.filter_cons, hx, ih]

theorem filter_name_head_of_filter_dot (l : List GHTag) (t : GHTag) (r : List GHTag)
    (h : l.filter (fun d => hasDot d.name) = t :: r) :
    ∃ r2, l.filter (fun d => d.name == t.name) = t :: r2 := by
  induction l with
  | nil => simp at h
  | cons x xs ih =>
    by_cases hx : hasDot x.name = true
    · rw [List.filter_cons, if_pos hx] at h
      obtain ⟨hxt, -⟩ := List.cons_eq_cons.mp h
      subst hxt
      exact ⟨xs.filter (fun d => d.name == x.name), by
        rw [List.filter_cons, if_pos (by simp)]⟩
    · rw [List.filter_cons, if_neg hx] at h
      obtain ⟨r2, hr2⟩ := ih h
      have ht : hasDot t.name = true := by
        have hmem : t ∈ xs.filter (fun d => hasDot d.name) := by
          rw [h]; exact List.mem_cons_self t r
        exact (List.mem_filter.mp hmem).2
      have hxname : ¬((fun d => d.name == t.name) x = true) := by
        intro hb
        have hxt : x.name = t.name := eq_of_beq hb
        rw [hxt] at hx
        exact hx ht
      rw [List.filter_cons, if_neg hxname]
      exact ⟨r2, hr2⟩

/-- C3: for a release with a non-empty retained tag list, the code returns
exactly the tag the claim describes: the first retained tag with a dot in its
name when any exists, otherwise the first retained tag, in API return order,
with no re-sorting. -/
theorem get_latest_release_tag_selection (version : Nat) (tags : List GHTag) (t : GHTag)
    (h : claimedTag (get_tags version tags) = some t) :
    get_latest_release_name_and_zip_url version tags
      = Except.ok ⟨t.name, t.zipball_url, t.commit_sha⟩ := by
  unfold get_latest_release_name_and_zip_url
  unfold claimedTag at h
  cases hr : get_tags version tags with
  | nil => rw [hr] at h; simp at h
  | cons d rest =>
    rw [hr] at h
    unfold select_latest
    simp only [List.map_cons]
    have hfm := filter_hasDot_map_name (d :: rest)
    simp only [List.map_cons] at hfm
    cases hf : (d :: rest).filter (fun d => hasDot d.name) with
    | nil =>
      rw [hf] at h
      simp only [List.head?_cons, Option.some.injEq] at h
      subst h
      rw [hf] at hfm
      simp only [hfm, List.map_nil]
      rw [List.filter_cons, if_pos (by simp)]
    | cons t0 r =>
      rw [hf] at h
      simp only [Option.some.injEq] at h
      subst h
      rw [hf] at hfm
      simp only [hfm, List.map_cons]
      obtain ⟨r2, hr2⟩ := filter_name_head_of_filter_dot (d :: rest) t0 r hf
      simp only [hr2]

theorem get_latest_release_tag_selection_witness :
    (claimedTag (get_tags 11 [⟨"jdk-11+5", "z1", "c1"⟩, ⟨"jdk-11.0.1", "z2", "c2"⟩])
        = some ⟨"jdk-11.0.1", "z2", "c2"⟩) ∧
      get_latest_release_name_and_zip_url 11
          [⟨"jdk-11+5", "z1", "c1"⟩, ⟨"jdk-11.0.1", "z2", "c2"⟩]
        = Except.ok ⟨"jdk-11.0.1", "z2", "c2"⟩ :=
  ⟨by decide,
    get_latest_release_tag_selection 11
      [⟨"jdk-11+5", "z1", "c1"⟩, ⟨"jdk-11.0.1", "z2", "c2"⟩]
      ⟨"jdk-11.0.1", "z2", "c2"⟩ (by decide)⟩

/-- C10: when no tag of the repository is retained (no tag name starts with
`jdk-{version}`), `get_latest_release_name_and_zip_url` raises the unhandled
IndexError coming from `names[0]` on the empty list, instead of returning a
tag or a typed discovery error. -/
theorem get_latest_release_empty_tags_indexError (version : Nat) (tags : List GHTag)
    (h : get_tags version tags = []) :
    get_latest_release_name_and_zip_url version tags = Except.error PyErr.indexError := by
  unfold get_latest_release_name_and_zip_url
  rw [h]
  rfl

theorem get_latest_release_empty_tags_indexError_witness :
    (get_tags 11 [⟨"foo", "z", "c"⟩] = []) ∧
      get_latest_release_name_and_zip_url 11 [⟨"foo", "z", "c"⟩]
        = Except.error PyErr.indexError :=
  ⟨by decide, get_latest_release_empty_tags_indexError 11 _ (by decide)⟩

/-- Observable actions of `download_zip`: the cached download (performed when
the archive file is absent), the `unzip` invocation, and the cleanup steps
`shutil.rmtree(dir_path)` / `os.remove(path)`. -/
inductive ZAction where
  | download
  | unzip
  | rmtreeDir
  | removeArchive
deriving DecidableEq, Repr

/-- Trace model of `download_zip(url, path, retention, max_tries)`.
`unzipFails i` says whether the `unzip` subprocess fails on the i-th attempt;
`archiveExists` / `dirExists` describe the cache state on entry (the archive
file within retention, the unpacked directory present).  On an unzip failure
with `max_tries = 0` the code prints and re-raises `CalledProcessError`; with
`max_tries > 0` it removes the unpacked directory and the archive file and
recurses with `max_tries - 1`, so the retry re-downloads and re-unzips from a
clean state. -/
def download_zip_model (unzipFails : Nat → Bool) :
    (maxTries attempt : Nat) → (archiveExists dirExists : Bool) →
    List ZAction × Except PyErr Unit
  | 0, attempt, archiveExists, dirExists =>
    let dl := if archiveExists then [] else [ZAction.download]
    if dirExists then (dl, Except.ok ())
    else if unzipFails attempt then
      (dl ++ [ZAction.unzip], Except.error PyErr.calledProcessError)
    else (dl ++ [ZAction.unzip], Except.ok ())
  | maxTries + 1, attempt, archiveExists, dirExists =>
    let dl := if archiveExists then [] else [ZAction.download]
    if dirExists then (dl, Except.ok ())
    else if unzipFails attempt then
      let rest := download_zip_model unzipFails maxTries (attempt + 1) false false
      (dl ++ [ZAction.unzip, ZAction.rmtreeDir, ZAction.removeArchive] ++ rest.1, rest.2)
    else (dl ++ [ZAction.unzip], Except.ok ())

/-- The action trace `download_zip` produces when every unzip attempt fails,
as a function of the remaining retry budget: each failed attempt except the
last is followed by removing the unpacked directory and the archive, and each
attempt (the first included) starts with a fresh download, so no stale
archive or partial directory survives into any retry. -/
def repeatedCorruptionTrace : Nat → List ZAction
  | 0 => [ZAction.download, ZAction.unzip]
  | n + 1 =>
    [ZAction.download, ZAction.unzip, ZAction.rmtreeDir, ZAction.removeArchive] ++
      repeatedCorruptionTrace n

/-- C4: on repeated corruption (every unzip fails) and an initially clean
cache, `download_zip` performs `maxTries + 1` unzip attempts — the initial
attempt plus exactly `maxTries` retries (default 3) — deleting the archive
and the whole partial output directory before every retry and re-running the
fetch-and-unpack from that clean state, and finally re-raises the
`CalledProcessError` of the last attempt. -/
theorem download_zip_exhausts_retries (maxTries attempt : Nat) (unzipFails : Nat → Bool)
    (h : ∀ i, unzipFails i = true) :
    download_zip_model unzipFails maxTries attempt false false
      = (repeatedCorruptionTrace maxTries, Except.error PyErr.calledProcessError) ∧
    (repeatedCorruptionTrace maxTries).count ZAction.unzip = maxTries + 1 := by
  constructor
  · induction maxTries generalizing attempt with
    | zero => simp [download_zip_model, repeatedCorruptionTrace, h]
    | succ n ih => simp [download_zip_model, repeatedCorruptionTrace, h, ih]
  · induction maxTries with
    | zero => rfl
    | succ n ih => simp [repeatedCorruptionTrace, List.count_append, ih]

theorem download_zip_exhausts_retries_witness :
    (∀ i : Nat, (fun _ : Nat => true) i = true) ∧
      (download_zip_model (fun _ => true) 3 0 false false
        = (repeatedCorruptionTrace 3, Except.error PyErr.calledProcessError) ∧
      (repeatedCorruptionTrace 3).count ZAction.unzip = 3 + 1) :=
  ⟨fun _ => rfl, download_zip_exhausts_retries 3 0 (fun _ => true) (fun _ => rfl)⟩

/-- Outcome of the network request inside `download_file`. -/
inductive FetchOutcome where
  | success
  | httpError (code : Nat)
  | otherError
deriving DecidableEq, Repr

/-- The try/except around the download in `download_file`.  The handler is
written `except ex:`; when any exception is raised in the body, Python
evaluates the handler expression `ex`, a name bound nowhere in the program,
so the lookup itself raises `NameError` in place of the original exception —
including for an HTTP 401, which the handler body (unreachable as written)
was meant to log and swallow. -/
def download_file_try_result : FetchOutcome → Except PyErr Unit
  | FetchOutcome.success => Except.ok ()
  | FetchOutcome.httpError _ => Except.error PyErr.nameError
  | FetchOutcome.otherError => Except.error PyErr.nameError

/-- C5: at the failing input — a fetch answered with HTTP 401 — the code does
not log-and-return: the broken `except ex:` clause turns the HTTPError into
an unhandled `NameError`, so `download_file` propagates an error instead of
returning normally.  The handler body's `isinstance(ex, HTTPError) and
ex.code == 401` check shows the intent the claim (and spec) describe; the
code is a slip (`except ex:` for `except Exception as ex:`). -/
theorem download_file_http401_raises_nameError :
    download_file_try_result (FetchOutcome.httpError 401)
      = Except.error PyErr.nameError := rfl

/-- `next(Path(path).glob("*"))` as used by `download_latest_release` and
`download_graal_version` to materialize the stable alias: the argument is the
unpacked archive's top-level entries in enumeration order; `next` raises
StopIteration on an empty enumeration and otherwise returns the first entry. -/
def first_glob_entry (entries : List String) : Except PyErr String :=
  match entries with
  | [] => Except.error PyErr.stopIteration
  | e :: _ => Except.ok e

/-- C7 (amended): with zero top-level entries the alias step fails loudly
(unhandled StopIteration from `next`), but with more than one entry it
silently picks the first entry of the enumeration instead of failing. -/
theorem first_glob_entry_zero_fails_multiple_picks_first (e : String) (rest : List String) :
    first_glob_entry [] = Except.error PyErr.stopIteration ∧
      first_glob_entry (e :: rest) = Except.ok e :=
  ⟨rfl, rfl⟩

/-- C7 counterexample: an unpacked directory with the two top-level entries
`a` and `b` does not make the operation fail — `next` silently returns the
first entry — refuting the claim that more than one entry raises an error. -/
theorem first_glob_entry_two_entries_no_error :
    first_glob_entry ["a", "b"] = Except.ok "a" := rfl

/-- Python `str.endswith`, modelled on the character lists of the strings. -/
def endswith (s tail : String) : Bool := listStarts tail.data.reverse s.data.reverse

/-- Decimal digit value of a character, if any. -/
def digitVal (c : Char) : Option Nat :=
  if 48 ≤ c.toNat && c.toNat ≤ 57 then some (c.toNat - 48) else none

/-- Accumulating decimal parse of a digit list. -/
def digitsToNatAux : List Char → Nat → Option Nat
  | [], acc => some acc
  | c :: cs, acc =>
    match digitVal c with
    | none => none
    | some d => digitsToNatAux cs (acc * 10 + d)

/-- Parse a non-empty digit list. -/
def digitsToNat : List Char → Option Nat
  | [] => none
  | cs => digitsToNatAux cs 0

/-- Python `int()` on the strings this program feeds it: an optional leading
minus sign followed by decimal digits; everything else raises ValueError
(modelled as `none`). -/
def pyIntChars (cs : List Char) : Option Int :=
  match cs with
  | c :: rest =>
    if c == '-' then (digitsToNat rest).map (fun n => -(n : Int))
    else (digitsToNat cs).map (fun n => (n : Int))
  | [] => none

/-- The repo-name filter of `get_repos`:
`name.startswith("jdk") and name.endswith("u")`. -/
def matchRepoName (name : String) : Bool :=
  startswith name "jdk" && endswith name "u"

/-- The version-collecting loop of `get_repos` over the org repo listing:
for each name matching `jdk*u`, parse `int(name[3:][:-1])` (a failing parse
raises ValueError) and keep versions `>= 11`, in listing order. -/
def collect_versions : List String → Except PyErr (List Int)
  | [] => Except.ok []
  | n :: rest =>
    if matchRepoName n then
      match pyIntChars (n.data.drop 3).dropLast with
      | none => Except.error PyErr.valueError
      | some v =>
        match collect_versions rest with
        | Except.error e => Except.error e
        | Except.ok vs => Except.ok (if 11 ≤ v then v :: vs else vs)
    else collect_versions rest

/-- `get_repos()` reduced to its version sequence: collect the matching
versions, take `max_version` (`max()` on an empty sequence raises
ValueError), append the synthetic tip `max_version + 1` for the trunk `jdk`
repository, and return the list sorted ascending by version (`sorted` with
the version key). -/
def get_repos_versions (names : List String) : Except PyErr (List Int) :=
  match collect_versions names with
  | Except.error e => Except.error e
  | Except.ok [] => Except.error PyErr.valueError
  | Except.ok (v :: vs) =>
    Except.ok (List.insertionSort (fun a b => a ≤ b) ((v :: vs) ++ [vs.foldl max v + 1]))

theorem le_foldl_max (v : Int) (vs : List Int) : ∀ x ∈ v :: vs, x ≤ vs.foldl max v := by
  induction vs generalizing v with
  | nil =>
    intro x hx
    rw [List.mem_singleton] at hx
    simp [hx]
  | cons y ys ih =>
    intro x hx
    simp only [List.foldl_cons]
    rcases List.mem_cons.mp hx with rfl | hx2
    · exact le_trans (le_max_left x y) (ih (max x y) (max x y) (List.mem_cons_self _ _))
    · rcases List.mem_cons.mp hx2 with rfl | hx3
      · exact le_trans (le_max_right v x) (ih (max v x) _ (List.mem_cons_self _ _))
      · exact ih (max v y) x (List.mem_cons.mpr (Or.inr hx3))

/-- C6 (amended): for any repository listing with at least one matching
release (every matching name parses), the returned version sequence is the
ascending (nondecreasing) sort of the discovered versions with one synthetic
tip appended, the tip ordinal equals `max(discovered) + 1`, it belongs to the
result, and it strictly exceeds every discovered version.  The sequence is
not in general strictly increasing or gapless from the minimum supported
ordinal: discovered ordinals are kept as found. -/
theorem get_repos_versions_sorted_with_tip (names : List String) (v : Int) (vs : List Int)
    (h : collect_versions names = Except.ok (v :: vs)) :
    get_repos_versions names
      = Except.ok (List.insertionSort (fun a b => a ≤ b) ((v :: vs) ++ [vs.foldl max v + 1])) ∧
    (List.insertionSort (fun a b => a ≤ b) ((v :: vs) ++ [vs.foldl max v + 1])).Sorted (· ≤ ·) ∧
    (vs.foldl max v + 1)
      ∈ List.insertionSort (fun a b => a ≤ b) ((v :: vs) ++ [vs.foldl max v + 1]) ∧
    ∀ x ∈ v :: vs, x < vs.foldl max v + 1 := by
  refine ⟨?_, ?_, ?_, ?_⟩
  · unfold get_repos_versions
    rw [h]
  · exact List.sorted_insertionSort _ _
  · rw [(List.perm_insertionSort _ _).mem_iff]
    simp
  · intro x hx
    have := le_foldl_max v vs x hx
    omega

theorem get_repos_versions_sorted_with_tip_witness :
    (collect_versions ["jdk11u", "jdk17u"] = Except.ok [11, 17]) ∧
      get_repos_versions ["jdk11u", "jdk17u"]
        = Except.ok (List.insertionSort (fun a b => a ≤ b)
            (([11, 17] : List Int) ++ [[(17 : Int)].foldl max 11 + 1])) ∧
      ∀ x ∈ ([11, 17] : List Int), x < [(17 : Int)].foldl max 11 + 1 :=
  ⟨by rfl,
    (get_repos_versions_sorted_with_tip ["jdk11u", "jdk17u"] 11 [17] (by rfl)).1,
    (get_repos_versions_sorted_with_tip ["jdk11u", "jdk17u"] 11 [17] (by rfl)).2.2.2⟩

/-- C6 counterexample: the discovered repository list `["jdk11u", "jdk17u"]`
has matching releases 11 and 17, and `get_repos` returns versions
`[11, 17, 18]` — the tip is `max + 1 = 18`, but the sequence is not gapless
from the catalog's minimum supported ordinal (11) up to the tip (18): the
ordinal 12 is missing from it. -/
theorem get_repos_versions_gap_counterexample :
    get_repos_versions ["jdk11u", "jdk17u"] = Except.ok [11, 17, 18] ∧
      ¬ (12 : Int) ∈ [(11 : Int), 17, 18] := by
  exact ⟨by rfl, by decide⟩

/-- A release object on the remote host, as the `gh` CLI operations used by
`deploy_github` see it: version tag, title, release-notes text, latest flag,
and named assets (name, content). -/
structure GHRelease where
  tag : String
  title : String
  notes : String
  isLatest : Bool
  assets : List (String × String)
deriving DecidableEq, Repr

/-- Modelled from the spec (the release-hosting publish API is an external
collaborator): `gh release create TAG -F notes -t title --latest files...` —
creating a release fails when one with that tag already exists, and otherwise
adds a release under the tag with the staged files attached and marked
latest. -/
def gh_release_create (tag title notes : String) (files : List (String × String))
    (st : List GHRelease) : Except Unit (List GHRelease) :=
  if st.any (fun r => r.tag == tag) then Except.error ()
  else Except.ok (st ++ [⟨tag, title, notes, true, files⟩])

/-- Modelled from the spec (external publish API): `gh release edit TAG -F
notes -t title --latest` updates the metadata of the existing release under
the tag, leaving its assets alone. -/
def gh_release_edit (tag title notes : String) (st : List GHRelease) : List GHRelease :=
  st.map (fun r => if r.tag == tag then ⟨r.tag, title, notes, true, r.assets⟩ else r)

/-- One `--clobber` upload into an asset list: replace the same-named asset
when present, append otherwise. -/
def clobber_one (assets : List (String × String)) (f : String × String) :
    List (String × String) :=
  if assets.any (fun a => a.1 == f.1) then
    assets.map (fun a => if a.1 == f.1 then f else a)
  else assets ++ [f]

/-- Modelled from the spec (external publish API): `gh release upload TAG
files... --clobber` uploads every staged file into the release under the
tag, overwriting same-named assets. -/
def gh_release_upload_clobber (tag : String) (files : List (String × String))
    (st : List GHRelease) : List GHRelease :=
  st.map (fun r =>
    if r.tag == tag then ⟨r.tag, r.title, r.notes, r.isLatest, files.foldl clobber_one r.assets⟩
    else r)

/-- `deploy_github()` against remote state `st`: try `gh release create
VERSION ...` with the staged files; when that call fails, fall back to `gh
release edit VERSION ...; gh release upload VERSION ... --clobber`.  (The
third-tier `os.system` fallback re-runs that same fallback command verbatim
and is reached only when the second tier itself fails, which the modelled
remote does not do.)  The staged files — the two jars, every release's full
and without-examples artifacts, and the changelog excerpt — do not influence
the transition shape, so they are a parameter. -/
def deploy_github_model (staged : List (String × String)) (title notes : String)
    (st : List GHRelease) : List GHRelease :=
  match gh_release_create VERSION title notes staged st with
  | Except.ok st2 => st2
  | Except.error _ =>
    gh_release_upload_clobber VERSION staged (gh_release_edit VERSION title notes st)

theorem map_ite_id {α : Type} (l : List α) (p : α → Bool) (f : α → α)
    (h : ∀ x ∈ l, p x = false) :
    l.map (fun x => if p x then f x else x) = l := by
  induction l with
  | nil => rfl
  | cons a rest ih =>
    have h1 := h a (List.mem_cons_self _ _)
    have h2 := ih (fun x hx => h x (List.mem_cons.mpr (Or.inr hx)))
    simp [h1, h2]

theorem map_clobber_mem (assets : List (String × String)) (f : String × String)
    (hnodup : (assets.map Prod.fst).Nodup) (hf : f ∈ assets) :
    assets.map (fun a => if a.1 == f.1 then f else a) = assets := by
  induction assets with
  | nil => cases hf
  | cons a rest ih =>
    simp only [List.map_cons, List.nodup_cons] at hnodup
    cases hb : (a.1 == f.1)
    · have hfr : f ∈ rest := by
        rcases List.mem_cons.mp hf with rfl | hfr
        · simp at hb
        · exact hfr
      simp only [List.map_cons, hb]
      rw [if_neg (by decide : ¬(false = true))]
      rw [ih hnodup.2 hfr]
    · have haf : f = a := by
        rcases List.mem_cons.mp hf with rfl | hfr
        · rfl
        · exfalso
          have hmem : a.1 ∈ rest.map Prod.fst := by
            rw [eq_of_beq hb]
            exact List.mem_map_of_mem Prod.fst hfr
          exact hnodup.1 hmem
      rw [haf]
      have hrest : rest.map (fun x => if x.1 == a.1 then a else x) = rest := by
        apply map_ite_id
        intro x hx
        cases hxb : (x.1 == a.1)
        · rfl
        · exfalso
          have hmem : a.1 ∈ rest.map Prod.fst := by
            rw [← eq_of_beq hxb]
            exact List.mem_map_of_mem Prod.fst hx
          exact hnodup.1 hmem
      simp only [List.map_cons]
      rw [if_pos (by simp : ((a.1 == a.1) = true))]
      rw [hrest]

theorem clobber_one_mem (assets : List (String × String)) (f : String × String)
    (hnodup : (assets.map Prod.fst).Nodup) (hf : f ∈ assets) :
    clobber_one assets f = assets := by
  unfold clobber_one
  rw [if_pos (List.any_eq_true.mpr ⟨f, hf, by simp⟩)]
  exact map_clobber_mem assets f hnodup hf

theorem foldl_clobber_subset (staged : List (String × String))
    (hnodup : (staged.map Prod.fst).Nodup) :
    ∀ l : List (String × String), (∀ f ∈ l, f ∈ staged) →
      l.foldl clobber_one staged = staged := by
  intro l
  induction l with
  | nil => intro _; rfl
  | cons f fs ih =>
    intro hsub
    simp only [List.foldl_cons]
    rw [clobber_one_mem staged f hnodup (hsub f (List.mem_cons_self _ _))]
    exact ih (fun g hg => hsub g (List.mem_cons.mpr (Or.inr hg)))

theorem gh_edit_append (title notes : String) (st : List GHRelease) (R : GHRelease)
    (hfresh : ∀ r ∈ st, (r.tag == VERSION) = false) (hR : R.tag = VERSION) :
    gh_release_edit VERSION title notes (st ++ [R])
      = st ++ [GHRelease.mk VERSION title notes true R.assets] := by
  unfold gh_release_edit
  rw [List.map_append, map_ite_id st _ _ hfresh]
  simp [hR]

theorem gh_upload_append (files : List (String × String)) (st : List GHRelease)
    (R : GHRelease)
    (hfresh : ∀ r ∈ st, (r.tag == VERSION) = false) (hR : R.tag = VERSION) :
    gh_release_upload_clobber VERSION files (st ++ [R])
      = st ++ [GHRelease.mk R.tag R.title R.notes R.isLatest
          (files.foldl clobber_one R.assets)] := by
  unfold gh_release_upload_clobber
  rw [List.map_append, map_ite_id st _ _ hfresh]
  simp [hR]

/-- C8: starting from any remote state with no release under the version tag
and staged files with distinct names, running `deploy_github` once creates
the release (the `create` attempt succeeds) and running it a second time
with identical inputs converges: `create` fails because the tag exists, the
edit-then-upload fallback rewrites the same metadata and re-uploads every
file with overwrite-on-conflict, and the remote state is unchanged — one
released bundle under the version tag carrying exactly the staged asset set,
not two releases and no permanent failure. -/
theorem deploy_github_idempotent (staged : List (String × String)) (title notes : String)
    (st : List GHRelease)
    (hfresh : ∀ r ∈ st, (r.tag == VERSION) = false)
    (hnodup : (staged.map Prod.fst).Nodup) :
    deploy_github_model staged title notes st
        = st ++ [GHRelease.mk VERSION title notes true staged] ∧
    deploy_github_model staged title notes (deploy_github_model staged title notes st)
        = deploy_github_model staged title notes st ∧
    ((st ++ [GHRelease.mk VERSION title notes true staged]).filter
        (fun r => r.tag == VERSION)).map GHRelease.assets = [staged] := by
  have hany : st.any (fun r => r.tag == VERSION) = false := by
    rw [List.any_eq_false]
    intro r hr
    simp [hfresh r hr]
  have h1 : deploy_github_model staged title notes st
      = st ++ [GHRelease.mk VERSION title notes true staged] := by
    unfold deploy_github_model gh_release_create
    rw [if_neg (by simp [hany])]
  refine ⟨h1, ?_, ?_⟩
  · rw [h1]
    unfold deploy_github_model gh_release_create
    rw [if_pos (by simp)]
    rw [gh_edit_append title notes st (GHRelease.mk VERSION title notes true staged)
      hfresh rfl]
    rw [gh_upload_append staged st
      (GHRelease.mk VERSION title notes true (GHRelease.mk VERSION title notes true
        staged).assets) hfresh rfl]
    simp [foldl_clobber_subset staged hnodup staged (fun f hf => hf)]
  · rw [List.filter_append]
    have hnil : st.filter (fun r => r.tag == VERSION) = [] := by
      rw [List.filter_eq_nil_iff]
      intro r hr
      simp [hfresh r hr]
    rw [hnil]
    simp

theorem deploy_github_idempotent_witness :
    (∀ r ∈ ([] : List GHRelease), (r.tag == VERSION) = false) ∧
      ((([("jfreventcollector.jar", "j1"), ("CHANGELOG.md", "c")] :
          List (String × String)).map Prod.fst).Nodup) ∧
      deploy_github_model [("jfreventcollector.jar", "j1"), ("CHANGELOG.md", "c")]
          "Release 0.6" "notes" []
        = [GHRelease.mk VERSION "Release 0.6" "notes" true
            [("jfreventcollector.jar", "j1"), ("CHANGELOG.md", "c")]] :=
  ⟨fun r hr => absurd hr (List.not_mem_nil r),
    by decide,
    by
      have h := (deploy_github_idempotent
        [("jfreventcollector.jar", "j1"), ("CHANGELOG.md", "c")]
        "Release 0.6" "notes" []
        (fun r hr => absurd hr (List.not_mem_nil r)) (by decide)).1
      simpa using h⟩

/-- The page loop of `get_graal_versions`: `for page in range(5): raw =
download_json(...page...); tags += raw; if not raw: break` — at most 5
pages, stopping right after the first empty page.  `pages i` is the
tag-name list of 0-based page `i`; the first argument is the number of loop
iterations left. -/
def graal_fetch_pages (pages : Nat → List String) : Nat → Nat → List String
  | 0, _ => []
  | n + 1, i =>
    let raw := pages i
    if raw.isEmpty then raw
    else raw ++ graal_fetch_pages pages n (i + 1)

/-- The tag list `get_graal_versions` accumulates from the paged API. -/
def graal_fetched_tags (pages : Nat → List String) : List String :=
  graal_fetch_pages pages 5 0

/-- `int(tag["name"][4:].replace("+", ".").split(".")[0])`: drop the 4-char
`jdk-` marker, replace `+` by `.`, keep the leading component before the
first `.`, parse it (ValueError modelled as `none`). -/
def graal_tag_ordinal (name : String) : Option Int :=
  pyIntChars (((name.data.drop 4).map (fun c => if c == '+' then '.' else c)).takeWhile
    (fun c => !(c == '.')))

/-- The `versions` dict loop of `get_graal_versions`: tags not starting with
`jdk-` are skipped; for each parsed ordinal only the first tag carrying it is
kept (`if version in versions: continue` discards later duplicates); a
failing `int()` raises ValueError.  The per-tag fetch of the companion's own
version string (`get_graal_vm_version_from_tag`) does not influence which
tags are kept and is elided; `acc` is the insertion-ordered (ordinal, tag)
association list built so far. -/
def graal_accum : List String → List (Int × String) → Except PyErr (List (Int × String))
  | [], acc => Except.ok acc
  | t :: rest, acc =>
    if startswith t "jdk-" then
      match graal_tag_ordinal t with
      | none => Except.error PyErr.valueError
      | some v =>
        if (acc.lookup v).isSome then graal_accum rest acc
        else graal_accum rest (acc ++ [(v, t)])
    else graal_accum rest acc

/-- `get_graal_versions()` reduced to its (ordinal, tag) pairs, finally
sorted ascending by ordinal (`sorted(versions.values(), key=jdk_version)`). -/
def get_graal_versions_pairs (pages : Nat → List String) :
    Except PyErr (List (Int × String)) :=
  match graal_accum (graal_fetched_tags pages) [] with
  | Except.error e => Except.error e
  | Except.ok l => Except.ok (List.insertionSort (fun a b => a.1 ≤ b.1) l)

/-- The tag the claim says survives for ordinal `v`: the first fetched
`jdk-`-tag whose parsed ordinal is `v`, in fetch order. -/
def firstTagWithOrdinal (v : Int) (tags : List String) : Option String :=
  (tags.filter (fun t => startswith t "jdk-" && (graal_tag_ordinal t == some v))).head?

/-- Concatenation of `pages i, pages (i+1), ..., pages (i+k-1)`. -/
def concatPages (pages : Nat → List String) : Nat → Nat → List String
  | _, 0 => []
  | i, k + 1 => pages i ++ concatPages pages (i + 1) k

theorem isEmpty_false_of_ne_nil {α : Type} (l : List α) (h : l ≠ []) :
    l.isEmpty = false := by
  cases l
  · exact absurd rfl h
  · rfl

theorem graal_fetch_pages_full (pages : Nat → List String) :
    ∀ n i, (∀ j, j < n → pages (i + j) ≠ []) →
      graal_fetch_pages pages n i = concatPages pages i n := by
  intro n
  induction n with
  | zero => intro i _; rfl
  | succ m ih =>
    intro i h
    have h0 : pages i ≠ [] := by
      have := h 0 (by omega)
      simpa using this
    rw [show graal_fetch_pages pages (m + 1) i
        = if (pages i).isEmpty then pages i
          else pages i ++ graal_fetch_pages pages m (i + 1) from rfl]
    rw [isEmpty_false_of_ne_nil (pages i) h0]
    simp only [Bool.false_eq_true, if_false]
    unfold concatPages
    rw [ih (i + 1) (fun j hj => by
      have := h (j + 1) (by omega)
      have harg : i + (j + 1) = i + 1 + j := by omega
      rwa [harg] at this)]

theorem graal_fetch_pages_stop (pages : Nat → List String) :
    ∀ n i k, k < n → pages (i + k) = [] → (∀ j, j < k → pages (i + j) ≠ []) →
      graal_fetch_pages pages n i = concatPages pages i k := by
  intro n
  induction n with
  | zero => intro i k hk; omega
  | succ m ih =>
    intro i k hk hempty hne
    cases k with
    | zero =>
      have h0 : pages i = [] := by simpa using hempty
      rw [show graal_fetch_pages pages (m + 1) i
          = if (pages i).isEmpty then pages i
            else pages i ++ graal_fetch_pages pages m (i + 1) from rfl]
      rw [h0]
      rfl
    | succ k2 =>
      have h0 : pages i ≠ [] := by
        have := hne 0 (by omega)
        simpa using this
      rw [show graal_fetch_pages pages (m + 1) i
          = if (pages i).isEmpty then pages i
            else pages i ++ graal_fetch_pages pages m (i + 1) from rfl]
      rw [isEmpty_false_of_ne_nil (pages i) h0]
      simp only [Bool.false_eq_true, if_false]
      unfold concatPages
      rw [ih (i + 1) k2 (by omega)
        (by
          have harg : i + 1 + k2 = i + (k2 + 1) := by omega
          rwa [harg])
        (fun j hj => by
          have := hne (j + 1) (by omega)
          have harg : i + (j + 1) = i + 1 + j := by omega
          rwa [harg] at this)]

theorem graal_accum_cons_skip (t : String) (rest : List String)
    (acc : List (Int × String)) (hs : startswith t "jdk-" = false) :
    graal_accum (t :: rest) acc = graal_accum rest acc := by
  simp [graal_accum, hs]

theorem graal_accum_cons_dup (t : String) (rest : List String)
    (acc : List (Int × String)) (w : Int) (hs : startswith t "jdk-" = true)
    (hw : graal_tag_ordinal t = some w) (hacc : (acc.lookup w).isSome = true) :
    graal_accum (t :: rest) acc = graal_accum rest acc := by
  simp [graal_accum, hs, hw, hacc]

theorem graal_accum_cons_new (t : String) (rest : List String)
    (acc : List (Int × String)) (w : Int) (hs : startswith t "jdk-" = true)
    (hw : graal_tag_ordinal t = some w) (hacc : (acc.lookup w).isSome = false) :
    graal_accum (t :: rest) acc = graal_accum rest (acc ++ [(w, t)]) := by
  simp [graal_accum, hs, hw, hacc]

theorem firstTag_cons_skip (v : Int) (t : String) (rest : List String)
    (h : (startswith t "jdk-" && (graal_tag_ordinal t == some v)) = false) :
    firstTagWithOrdinal v (t :: rest) = firstTagWithOrdinal v rest := by
  unfold firstTagWithOrdinal
  rw [List.filter_cons, if_neg (by rw [h]; exact Bool.false_ne_true)]

theorem firstTag_cons_match (v : Int) (t : String) (rest : List String)
    (h : (startswith t "jdk-" && (graal_tag_ordinal t == some v)) = true) :
    firstTagWithOrdinal v (t :: rest) = some t := by
  unfold firstTagWithOrdinal
  rw [List.filter_cons, if_pos h]
  rfl

theorem lookup_append_or (l1 l2 : List (Int × String)) (v : Int) :
    (l1 ++ l2).lookup v = (l1.lookup v).or (l2.lookup v) := by
  induction l1 with
  | nil => rfl
  | cons p r ih =>
    obtain ⟨k, b⟩ := p
    simp only [List.cons_append, List.lookup]
    cases hb : (v == k)
    · simpa using ih
    · rfl

theorem lookup_singleton_eq (w : Int) (t : String) :
    (([(w, t)] : List (Int × String)).lookup w) = some t := by
  simp [List.lookup]

theorem lookup_singleton_ne (v w : Int) (t : String) (h : ¬(v = w)) :
    (([(w, t)] : List (Int × String)).lookup v) = none := by
  have hb : (v == w) = false := beq_eq_false_iff_ne.mpr h
  simp [List.lookup, hb]

theorem graal_accum_lookup : ∀ tags : List String,
    (∀ t ∈ tags, startswith t "jdk-" = true → (graal_tag_ordinal t).isSome = true) →
    ∀ acc : List (Int × String), ∃ l, graal_accum tags acc = Except.ok l ∧
      ∀ v : Int, l.lookup v = (acc.lookup v).or (firstTagWithOrdinal v tags) := by
  intro tags
  induction tags with
  | nil =>
    intro _ acc
    refine ⟨acc, rfl, ?_⟩
    intro v
    cases h : acc.lookup v <;> rfl
  | cons t rest ih =>
    intro hok acc
    have hokr : ∀ u ∈ rest, startswith u "jdk-" = true →
        (graal_tag_ordinal u).isSome = true :=
      fun u hu => hok u (List.mem_cons.mpr (Or.inr hu))
    cases hs : startswith t "jdk-" with
    | false =>
      obtain ⟨l, hl, hlook⟩ := ih hokr acc
      refine ⟨l, ?_, ?_⟩
      · rw [graal_accum_cons_skip t rest acc hs]
        exact hl
      · intro v
        rw [hlook v, firstTag_cons_skip v t rest (by rw [hs]; rfl)]
    | true =>
      obtain ⟨w, hw⟩ := Option.isSome_iff_exists.mp (hok t (List.mem_cons_self _ _) hs)
      cases hacc : (acc.lookup w).isSome with
      | true =>
        obtain ⟨l, hl, hlook⟩ := ih hokr acc
        refine ⟨l, ?_, ?_⟩
        · rw [graal_accum_cons_dup t rest acc w hs hw hacc]
          exact hl
        · intro v
          by_cases hv : v = w
          · subst hv
            obtain ⟨u, hu⟩ := Option.isSome_iff_exists.mp hacc
            rw [hlook v, hu, firstTag_cons_match v t rest (by simp [hs, hw])]
            rfl
          · rw [hlook v, firstTag_cons_skip v t rest (by
              rw [hs, hw]
              simp only [Bool.true_and, beq_eq_false_iff_ne, ne_eq, Option.some.injEq]
              exact fun hh => hv hh.symm)]
      | false =>
        obtain ⟨l, hl, hlook⟩ := ih hokr (acc ++ [(w, t)])
        refine ⟨l, ?_, ?_⟩
        · rw [graal_accum_cons_new t rest acc w hs hw hacc]
          exact hl
        · intro v
          rw [hlook v, lookup_append_or]
          by_cases hv : v = w
          · subst hv
            rw [lookup_singleton_eq]
            have haccn : acc.lookup v = none := by
              cases h2 : acc.lookup v
              · rfl
              · rw [h2] at hacc; cases hacc
            rw [haccn, firstTag_cons_match v t rest (by simp [hs, hw])]
            rfl
          · rw [lookup_singleton_ne v w t hv,
              firstTag_cons_skip v t rest (by
                rw [hs, hw]
                simp only [Bool.true_and, beq_eq_false_iff_ne, ne_eq, Option.some.injEq]
                exact fun hh => hv hh.symm)]
            cases h2 : acc.lookup v <;> rfl

/-- C9 (amended): companion-version discovery fetches at most 5 tag pages —
when the first five pages are all non-empty it fetches exactly those five and
stops without ever having seen an empty page, and when an earlier page `k`
comes back empty it stops there having fetched pages `0..k-1` — filters to
`jdk-`-prefixed tags, extracts the leading integer component as the target
ordinal, and keeps for each distinct ordinal exactly the first tag in fetch
order (the association of every ordinal is the first fetched tag parsing to
it; later duplicates are discarded). -/
theorem get_graal_versions_paging_and_first_per_ordinal (pages : Nat → List String)
    (hok : ∀ t ∈ graal_fetched_tags pages, startswith t "jdk-" = true →
      (graal_tag_ordinal t).isSome = true) :
    ((∀ j, j < 5 → pages j ≠ []) →
      graal_fetched_tags pages = concatPages pages 0 5) ∧
    (∀ k, k < 5 → pages k = [] → (∀ j, j < k → pages j ≠ []) →
      graal_fetched_tags pages = concatPages pages 0 k) ∧
    ∃ l, graal_accum (graal_fetched_tags pages) [] = Except.ok l ∧
      ∀ v : Int, l.lookup v = firstTagWithOrdinal v (graal_fetched_tags pages) := by
  refine ⟨?_, ?_, ?_⟩
  · intro h
    exact graal_fetch_pages_full pages 5 0 (fun j hj => by
      have := h j hj
      simpa using this)
  · intro k hk hempty hne
    exact graal_fetch_pages_stop pages 5 0 k hk (by simpa using hempty)
      (fun j hj => by
        have := hne j hj
        simpa using this)
  · obtain ⟨l, hl, hlook⟩ := graal_accum_lookup (graal_fetched_tags pages) hok []
    exact ⟨l, hl, fun v => by rw [hlook v]; rfl⟩

/-- Concrete page oracle for the C9 witness: one non-empty page, empty from
page 1 on. -/
def graalPagesW : Nat → List String :=
  fun i => if i = 0 then ["jdk-21.0", "jdk-21.1", "other"] else []

theorem get_graal_versions_paging_and_first_per_ordinal_witness :
    (∀ t ∈ graal_fetched_tags graalPagesW, startswith t "jdk-" = true →
        (graal_tag_ordinal t).isSome = true) ∧
    (((∀ j, j < 5 → graalPagesW j ≠ []) →
        graal_fetched_tags graalPagesW = concatPages graalPagesW 0 5) ∧
      (∀ k, k < 5 → graalPagesW k = [] → (∀ j, j < k → graalPagesW j ≠ []) →
        graal_fetched_tags graalPagesW = concatPages graalPagesW 0 k) ∧
      ∃ l, graal_accum (graal_fetched_tags graalPagesW) [] = Except.ok l ∧
        ∀ v : Int, l.lookup v = firstTagWithOrdinal v (graal_fetched_tags graalPagesW)) :=
  ⟨by decide, get_graal_versions_paging_and_first_per_ordinal graalPagesW (by decide)⟩

/-- Concrete page oracle for the C9 counterexample: pages 0..5 each carry one
tag, page 6 is the first empty page. -/
def sixPages : Nat → List String :=
  fun i => if i ≤ 5 then ["jdk-" ++ toString (11 + i)] else []

/-- C9 counterexample: with six non-empty pages ahead of the first empty
page, the code stops after page 4 — the tag `jdk-16` sitting on page 5,
before any empty page, is never fetched — refuting the claim that pages are
fetched until an empty page is returned. -/
theorem get_graal_versions_page_cap_counterexample :
    graal_fetched_tags sixPages = ["jdk-11", "jdk-12", "jdk-13", "jdk-14", "jdk-15"] ∧
      sixPages 5 = ["jdk-16"] ∧ sixPages 6 = [] ∧
      ¬ "jdk-16" ∈ graal_fetched_tags sixPages := by
  refine ⟨by decide, by decide, by decide, by decide⟩

end Releaser
